import Mathlib

/-
Shallow embedding of the Issue Detection & Scoring Engine of
alextitov19/code-quality-agent (TypeScript).

Sources embedded:
  src/src/types/index.ts          : data model
  src/src/analyzers/complexity.ts : ComplexityAnalyzer
  src/src/analyzers/security.ts   : SecurityAnalyzer
  src/src/analyzers/performance.ts: PerformanceAnalyzer
  src/src/agent.ts                : CodeQualityAgent (analyzeCode,
                                    enhanceWithAI, calculateMetrics)

Strings are processed as `List Char` (file contents are split into lines and
scanned character by character), mirroring the JavaScript string operations
(`split('\n')`, `trim()`, `includes`, regex `test`) used by the source.
JavaScript regular expressions that appear in the source are hand-translated
into ad-hoc matching functions over `List Char`; each matcher carries a
comment with the original regex.  Regexes created with the `g` flag and used
with `.test()` keep their `lastIndex` state across calls; this statefulness
is modelled explicitly (`gTest`).
-/

/-! ## Data model (src/src/types/index.ts) -/

/-- severity: 'critical' | 'high' | 'medium' | 'low' -/
inductive Severity
| critical
| high
| medium
| low
deriving DecidableEq

/-- category: 'security' | 'performance' | 'complexity' | 'duplication' | 'testing' | 'documentation' -/
inductive IssueCategory
| security
| performance
| complexity
| duplication
| testing
| documentation
deriving DecidableEq

/-- location: \x7b file: string; line?: number; snippet?: string \x7d -/
structure IssueLocation where
  file : String
  line : Option Nat
  snippet : Option String
deriving DecidableEq

/-- QualityIssue interface. -/
structure QualityIssue where
  category : IssueCategory
  severity : Severity
  title : String
  description : String
  location : IssueLocation
  impact : String
  recommendation : String
deriving DecidableEq

/-- CodeFile interface. -/
structure CodeFile where
  path : String
  content : String
  language : String
  size : Nat
deriving DecidableEq

/-- metrics record returned by calculateMetrics. -/
structure Metrics where
  codeQualityScore : Int
  securityScore : Int
  maintainabilityScore : Int
deriving DecidableEq

/-- summary part of AnalysisResult. -/
structure AnalysisSummary where
  totalFiles : Nat
  totalIssues : Nat
  criticalIssues : Nat
  languages : List String
  analysisDate : String
deriving DecidableEq

/-- AnalysisResult interface. -/
structure AnalysisResult where
  summary : AnalysisSummary
  issues : List QualityIssue
  metrics : Metrics
deriving DecidableEq

/-! ## String utilities modelling the JavaScript operations used -/

/-- JS String.prototype.split('\n'): split a character list at newlines,
keeping empty segments (so the result always has at least one element). -/
def splitLines : List Char → List (List Char)
| [] => [[]]
| c :: rest =>
  if c = '\n' then [] :: splitLines rest
  else
    match splitLines rest with
    | l :: ls => (c :: l) :: ls
    | [] => [[c]]

/-- whitespace for JS trim / regex \s (inputs are ASCII). -/
def jsWs (c : Char) : Bool := c.isWhitespace

/-- JS String.prototype.trim(). -/
def trimL (s : List Char) : List Char :=
  ((s.dropWhile jsWs).reverse.dropWhile jsWs).reverse

/-- JS regex \w character class: [A-Za-z0-9_]. -/
def isWordChar (c : Char) : Bool := c.isAlphanum || c == '_'

/-- Does the second list start with the first one? -/
def startsWithL : List Char → List Char → Bool
| [], _ => true
| _ :: _, [] => false
| p :: ps, c :: cs => p == c && startsWithL ps cs

/-- JS String.prototype.includes: does s contain pat as a contiguous sublist? -/
def hasSub (pat : List Char) : List Char → Bool
| [] => pat.isEmpty
| c :: rest => startsWithL pat (c :: rest) || hasSub pat rest

/-- Fuel-driven helper for countOccur: scan left to right, on a match jump
past it (non-overlapping matches, as counted by str.match(/pat/g).length).
The fuel starts at the string length and one character is consumed per step,
so it never runs out for the nonempty patterns used by the source. -/
def countOccurFuel (pat : List Char) : Nat → List Char → Nat
| 0, _ => 0
| _ + 1, [] => 0
| fuel + 1, c :: rest =>
  if pat ≠ [] && startsWithL pat (c :: rest) then
    1 + countOccurFuel pat fuel ((c :: rest).drop pat.length)
  else
    countOccurFuel pat fuel rest

/-- Number of non-overlapping occurrences of pat in s
(JS (s.match(new RegExp(escapedPat, 'g')) || []).length for a literal
pattern with every regex metacharacter escaped). -/
def countOccur (pat s : List Char) : Nat := countOccurFuel pat s.length s

/-- Lowercasing used to model the regex i flag (ASCII inputs). -/
def toLowerL (s : List Char) : List Char := s.map Char.toLower

/-- Consume a maximal run of characters satisfying p; return the number of
characters consumed and the remaining suffix. -/
def munch (p : Char → Bool) (s : List Char) : Nat × List Char :=
  let t := s.dropWhile p
  (s.length - t.length, t)

/-- Does some suffix of the list satisfy f (used for unanchored regex test)? -/
def anySuffix (f : List Char → Bool) : List Char → Bool
| [] => f []
| c :: rest => f (c :: rest) || anySuffix f rest

/-- Index of the last element satisfying p, if any. -/
def lastIdxP (p : Char → Bool) : List Char → Option Nat
| [] => none
| c :: rest =>
  match lastIdxP p rest with
  | some j => some (j + 1)
  | none => if p c then some 0 else none

/-- Index of the first element satisfying p, if any. -/
def firstIdxP (p : Char → Bool) : List Char → Option Nat
| [] => none
| c :: rest => if p c then some 0 else (firstIdxP p rest).map (· + 1)

/-- Index of the first occurrence of pat as a sublist, if any. -/
def firstSubIdx (pat : List Char) : List Char → Option Nat
| [] => if pat.isEmpty then some 0 else none
| c :: rest =>
  if startsWithL pat (c :: rest) then some 0
  else (firstSubIdx pat rest).map (· + 1)

/-! ### Stateful regex-`test` harness (g flag)

A matcher m takes the suffix of the line starting at a candidate match
position and returns (some k) when the pattern matches there, where k is
the number of characters the (greedy, leftmost) match consumes; it returns
none when there is no match starting exactly there. -/

/-- Leftmost match search: try candidate start positions left to right from
the given absolute position; return the absolute end index of the match. -/
def searchAux (m : List Char → Option Nat) : List Char → Nat → Option Nat
| [], p => (m []).map (p + ·)
| c :: rest, p =>
  match m (c :: rest) with
  | some k => some (p + k)
  | none => searchAux m rest (p + 1)

/-- Search for a match starting at index ≥ start. -/
def searchFrom (m : List Char → Option Nat) (s : List Char) (start : Nat) : Option Nat :=
  searchAux m (s.drop start) start

/-- JS RegExp.prototype.test on a regex with the g flag: matching starts at
lastIndex; on success lastIndex becomes the end of the match, on failure it
is reset to 0. Returns (matched?, new lastIndex). -/
def gTest (m : List Char → Option Nat) (line : List Char) (lastIdx : Nat) : Bool × Nat :=
  match searchFrom m line lastIdx with
  | some e => (true, e)
  | none => (false, 0)

/-- Run a list of stateful g-flag matchers (one lastIndex per matcher, in
order) against one line; returns the new lastIndex list and per-matcher
match flags. -/
def gTestMany : List (List Char → Option Nat) → List Nat → List Char → List Nat × List Bool
| [], _, _ => ([], [])
| m :: ms, st, line =>
  let r := gTest m line (st.headD 0)
  let rest := gTestMany ms st.tail line
  (r.2 :: rest.1, r.1 :: rest.2)

/-- JS [...new Set(xs)]: distinct elements in first-occurrence order. -/
def distinctKeys {α : Type} [DecidableEq α] (l : List α) : List α :=
  l.foldl (fun acc a => if a ∈ acc then acc else acc ++ [a]) []

/-! ## ComplexityAnalyzer (src/src/analyzers/complexity.ts) -/

/-- regex /function\s+\w+\s*\(/ anchored at the current position. -/
def funcDeclPat1 (s : List Char) : Bool :=
  startsWithL "function".data s &&
  (let r1 := munch jsWs (s.drop 8)
   1 ≤ r1.1 &&
   (let r2 := munch isWordChar r1.2
    1 ≤ r2.1 &&
    (match (r2.2.dropWhile jsWs) with
     | '(' :: _ => true
     | _ => false)))

/-- regex /\w+\s*=\s*function\s*\(/ anchored at the current position. -/
def funcDeclPat2 (s : List Char) : Bool :=
  match s with
  | c :: _ =>
    isWordChar c &&
    (let r1 := (munch isWordChar s).2.dropWhile jsWs
     match r1 with
     | '=' :: r2 =>
       let r3 := r2.dropWhile jsWs
       startsWithL "function".data r3 &&
       (match ((r3.drop 8).dropWhile jsWs) with
        | '(' :: _ => true
        | _ => false)
     | _ => false)
  | [] => false

/-- regex /\w+\s*=\s*\(.*\)\s*=>/ anchored at the current position. -/
def funcDeclPat3 (s : List Char) : Bool :=
  match s with
  | c :: _ =>
    isWordChar c &&
    (let r1 := (munch isWordChar s).2.dropWhile jsWs
     match r1 with
     | '=' :: r2 =>
       match r2.dropWhile jsWs with
       | '(' :: r3 =>
         anySuffix (fun r =>
           match r with
           | ')' :: r4 => startsWithL "=>".data (r4.dropWhile jsWs)
           | _ => false) r3
       | _ => false
     | _ => false)
  | [] => false

/-- regex /async\s+function\s+\w+/ anchored at the current position. -/
def funcDeclPat4 (s : List Char) : Bool :=
  startsWithL "async".data s &&
  (let r1 := munch jsWs (s.drop 5)
   1 ≤ r1.1 &&
   startsWithL "function".data r1.2 &&
   (let r2 := munch jsWs (r1.2.drop 8)
    1 ≤ r2.1 &&
    (match r2.2 with
     | c :: _ => isWordChar c
     | [] => false)))

/-- regex /def\s+\w+\s*\(/ anchored at the current position. -/
def funcDeclPat5 (s : List Char) : Bool :=
  startsWithL "def".data s &&
  (let r1 := munch jsWs (s.drop 3)
   1 ≤ r1.1 &&
   (let r2 := munch isWordChar r1.2
    1 ≤ r2.1 &&
    (match (r2.2.dropWhile jsWs) with
     | '(' :: _ => true
     | _ => false)))

/-- regex /func\s+\w+\s*\(/ anchored at the current position. -/
def funcDeclPat6 (s : List Char) : Bool :=
  startsWithL "func".data s &&
  (let r1 := munch jsWs (s.drop 4)
   1 ≤ r1.1 &&
   (let r2 := munch isWordChar r1.2
    1 ≤ r2.1 &&
    (match (r2.2.dropWhile jsWs) with
     | '(' :: _ => true
     | _ => false)))

/-- regex /(public|private|protected)?\s*(static)?\s*\w+\s+\w+\s*\(/
anchored at the current position.  Both groups and both leading \s* are
optional and may match the empty string, so for the purposes of test()
this pattern matches somewhere in the line iff /\w+\s+\w+\s*\(/ does; we
match that residue. -/
def funcDeclPat7 (s : List Char) : Bool :=
  match s with
  | c :: _ =>
    isWordChar c &&
    (let r1 := munch jsWs ((munch isWordChar s).2)
     1 ≤ r1.1 &&
     (let r2 := munch isWordChar r1.2
      1 ≤ r2.1 &&
      (match (r2.2.dropWhile jsWs) with
       | '(' :: _ => true
       | _ => false)))
  | [] => false

/-- isFunctionDeclaration(line): patterns.some(pattern => pattern.test(line)).
All seven patterns are flagless, hence stateless and case-sensitive. -/
def isFunctionDeclaration (t : List Char) : Bool :=
  [funcDeclPat1, funcDeclPat2, funcDeclPat3, funcDeclPat4,
   funcDeclPat5, funcDeclPat6, funcDeclPat7].any (fun p => anySuffix p t)

/-- complexityKeywords of checkCyclomaticComplexity, in source order. -/
def complexityKeywords : List (List Char) :=
  ["if".data, "else if".data, "for".data, "while".data, "case".data,
   "&&".data, "||".data, "?".data, "catch".data]

/-- Per-line complexity increment: one per (non-overlapping, regex-escaped,
literal) occurrence of each keyword in the trimmed line. -/
def countComplexity (t : List Char) : Nat :=
  complexityKeywords.foldl (fun s k => s + countOccur k t) 0

/-- Finding pushed by checkCyclomaticComplexity. -/
def mkCycloIssue (path : String) (startLine : Nat) (cur : List Char) (cx : Nat) : QualityIssue :=
  { category := .complexity
    severity := if 20 < cx then .high else .medium
    title := "High Cyclomatic Complexity"
    description := "Function has cyclomatic complexity of " ++ Nat.repr cx
    location := { file := path, line := some startLine, snippet := some (String.mk cur) }
    impact := "High complexity makes code harder to understand, test, and maintain"
    recommendation := "Break down into smaller functions, reduce conditional logic, or use strategy pattern" }

/-- Line loop of checkCyclomaticComplexity: state is (currentFunction,
complexity, functionStartLine); idx is the 0-based index of the next line.
A finding is pushed only when a new function declaration line is seen while
a previous function with complexity > 10 is buffered. -/
def cycloGo (path : String) : List (List Char) → Nat → List Char → Nat → Nat → List QualityIssue
| [], _, _, _, _ => []
| l :: ls, idx, cur, cx, startLine =>
  let t := trimL l
  if isFunctionDeclaration t then
    (if cur ≠ [] ∧ 10 < cx then [mkCycloIssue path startLine cur cx] else []) ++
    cycloGo path ls (idx + 1) t (1 + countComplexity t) (idx + 1)
  else
    cycloGo path ls (idx + 1) cur (cx + countComplexity t) startLine

/-- checkCyclomaticComplexity(file). -/
def checkCyclomaticComplexity (file : CodeFile) : List QualityIssue :=
  cycloGo file.path (splitLines file.content.data) 0 [] 1 0

/-- Finding pushed by checkFunctionLength. -/
def mkLongIssue (path : String) (startLine : Nat) (len : Nat) (cur : List Char) : QualityIssue :=
  { category := .complexity
    severity := if 100 < len then .high else .medium
    title := "Long Function"
    description := "Function is " ++ Nat.repr len ++ " lines long"
    location := { file := path, line := some startLine, snippet := some (String.mk cur) }
    impact := "Long functions are harder to understand, test, and maintain"
    recommendation := "Extract logical blocks into smaller, focused functions with clear responsibilities" }

/-- The unconditional tail of the checkFunctionLength loop body
(the if (currentFunction) block): count the line, update the brace balance
(braceCount is a JS number and may go negative, hence Int), and clear
currentFunction when the balance returns to 0 after more than one line. -/
def funcLenStep (t : List Char) (cur : List Char) (len : Nat) (bc : Int) :
    List Char × Nat × Int :=
  if cur ≠ [] then
    let len' := len + 1
    let bc' := bc + (t.count '\x7b' : Int) - (t.count '\x7d' : Int)
    (if bc' = 0 ∧ 1 < len' then [] else cur, len', bc')
  else
    (cur, len, bc)

/-- Line loop of checkFunctionLength: state is (currentFunction,
functionStartLine, functionLength, braceCount). -/
def funcLenGo (path : String) :
    List (List Char) → Nat → List Char → Nat → Nat → Int → List QualityIssue
| [], _, _, _, _, _ => []
| l :: ls, idx, cur, startLine, len, bc =>
  let t := trimL l
  if isFunctionDeclaration t then
    (if cur ≠ [] ∧ 50 < len then [mkLongIssue path startLine len cur] else []) ++
    (let st := funcLenStep t t 0 0
     funcLenGo path ls (idx + 1) st.1 (idx + 1) st.2.1 st.2.2)
  else
    let st := funcLenStep t cur len bc
    funcLenGo path ls (idx + 1) st.1 startLine st.2.1 st.2.2

/-- checkFunctionLength(file). -/
def checkFunctionLength (file : CodeFile) : List QualityIssue :=
  funcLenGo file.path (splitLines file.content.data) 0 [] 0 0 0

/-- Window normalization of checkCodeDuplication: take 5 consecutive lines,
trim each, drop blank lines and lines starting with a comment marker, and
join with newlines. -/
def normBlock (lines : List (List Char)) (i : Nat) : List Char :=
  let kept := (((lines.drop i).take 5).map trimL).filter
    (fun l => !l.isEmpty && !startsWithL "//".data l && !startsWithL "/*".data l)
  match kept with
  | [] => []
  | b :: bs => bs.foldl (fun acc l => acc ++ '\n' :: l) b

/-- JS Map insertion-order association list: blocks.get(k)!.push(v), with
blocks.set(k, []) first when the key is new (new keys go to the end). -/
def addOcc : List (List Char × List Nat) → List Char → Nat → List (List Char × List Nat)
| [], k, v => [(k, [v])]
| (k', vs) :: rest, k, v =>
  if k = k' then (k', vs ++ [v]) :: rest else (k', vs) :: addOcc rest k v

/-- The blocks map of checkCodeDuplication after the window loop
(for i = 0; i <= lines.length - blockSize; i++ with blockSize = 5,
recording i+1 for every window whose normalized text is > 50 chars). -/
def buildBlocks (lines : List (List Char)) : List (List Char × List Nat) :=
  (List.range (lines.length - 4)).foldl
    (fun m i =>
      let b := normBlock lines i
      if 50 < b.length then addOcc m b (i + 1) else m)
    []

/-- Finding pushed by checkCodeDuplication for a duplicated block group. -/
def mkDupIssue (path : String) (e : List Char × List Nat) : QualityIssue :=
  { category := .complexity
    severity := .medium
    title := "Code Duplication Detected"
    description := "Similar code block found in " ++ Nat.repr e.2.length ++ " locations"
    location := { file := path, line := some (e.2.headD 0),
                  snippet := some (String.mk (e.1.take 100) ++ "...") }
    impact := "Duplicated code increases maintenance burden and risk of inconsistent updates"
    recommendation := "Extract common code into a reusable function or module" }

/-- checkCodeDuplication(file): one finding per map entry with 2 or more
recorded occurrences, in map insertion order. -/
def checkCodeDuplication (file : CodeFile) : List QualityIssue :=
  ((buildBlocks (splitLines file.content.data)).filter
    (fun e => 1 < e.2.length)).map (mkDupIssue file.path)

/-- ComplexityAnalyzer.analyze(files). -/
def complexityAnalyze (files : List CodeFile) : List QualityIssue :=
  files.foldr
    (fun f acc =>
      checkCyclomaticComplexity f ++ checkFunctionLength f ++ checkCodeDuplication f ++ acc)
    []

/-! ## SecurityAnalyzer (src/src/analyzers/security.ts)

All patterns of this analyzer carry the flags gi: matching is
case-insensitive (modelled by lowercasing the line) and the regex object
keeps its lastIndex across .test() calls.  The pattern arrays are created
once per check invocation (per file), so lastIndex state is carried across
the lines of one file. -/

/-- quote class ["'] of the secret patterns. -/
def isQuote2 (c : Char) : Bool := c == '"' || c == '\x27'

/-- quote class ["'\x60] (double quote, single quote, backtick). -/
def isQuote3 (c : Char) : Bool := c == '"' || c == '\x27' || c == '\x60'

/-- Anchored matcher for the secret patterns, which all have the form
/KEY\s*=\s*["'](?!.*\$\{)(.{MIN,})["']/gi (the aws pattern omits the
lookahead).  keys lists the literal alternatives of KEY (lowercased).
After the opening quote, the negative lookahead fails the match when the
rest of the line contains "$\x7b"; the greedy (.{MIN,}) then makes the match
end just after the last quote lying at least MIN characters beyond the
opening quote. -/
def secretHere (keys : List (List Char)) (minLen : Nat) (lookahead : Bool)
    (s : List Char) : Option Nat :=
  keys.findSome? fun key =>
    if startsWithL key s then
      let m1 := munch jsWs (s.drop key.length)
      match m1.2 with
      | '=' :: r3 =>
        let m2 := munch jsWs r3
        match m2.2 with
        | q :: r5 =>
          if isQuote2 q then
            if lookahead && hasSub ['$', '\x7b'] r5 then none
            else
              match lastIdxP isQuote2 r5 with
              | some j =>
                if minLen ≤ j then
                  some (key.length + m1.1 + 1 + m2.1 + 1 + (j + 1))
                else none
              | none => none
          else none
        | [] => none
      | _ => none
    else none

/-- The five secret patterns of checkHardcodedSecrets, in source order:
password (min 3), api[_-]?key (min 8), secret (min 8), token (min 8) — all
with the (?!.*\$\{) lookahead — and aws_access_key_id (min 16) without. -/
def secretMatchers : List (List Char → Option Nat) :=
  [secretHere ["password".data] 3 true,
   secretHere ["api_key".data, "api-key".data, "apikey".data] 8 true,
   secretHere ["secret".data] 8 true,
   secretHere ["token".data] 8 true,
   secretHere ["aws_access_key_id".data] 16 false]

/-- Finding pushed by checkHardcodedSecrets. -/
def mkSecretIssue (path : String) (line : Nat) (t : List Char) : QualityIssue :=
  { category := .security
    severity := .critical
    title := "Hardcoded Secret Detected"
    description := "Potential hardcoded secret or credential found in source code"
    location := { file := path, line := some line, snippet := some (String.mk t) }
    impact := "Exposed credentials can lead to unauthorized access and data breaches"
    recommendation := "Use environment variables or secure secret management services (e.g., AWS Secrets Manager, HashiCorp Vault)" }

/-- Line loop of checkHardcodedSecrets: one finding per pattern whose
(stateful) test succeeds on the line; the lastIndex list is carried to the
next line.  All findings of one line are identical records. -/
def secretsGo (path : String) : List (List Char) → Nat → List Nat → List QualityIssue
| [], _, _ => []
| l :: ls, idx, states =>
  let r := gTestMany secretMatchers states (toLowerL l)
  List.replicate (r.2.countP id) (mkSecretIssue path (idx + 1) (trimL l)) ++
  secretsGo path ls (idx + 1) r.1

/-- checkHardcodedSecrets(file). -/
def checkHardcodedSecrets (file : CodeFile) : List QualityIssue :=
  secretsGo file.path (splitLines file.content.data) 0 [0, 0, 0, 0, 0]

/-- Anchored matcher for /NAME\s*\(\s*["'\x60].*\+.*["'\x60]/gi
(NAME = execute or query): after the opening quote there must be a '+' and,
after it, a closing quote; greedily the match ends after the last quote
following the first such '+'. -/
def sqlCallHere (name : List Char) (s : List Char) : Option Nat :=
  if startsWithL name s then
    let m1 := munch jsWs (s.drop name.length)
    match m1.2 with
    | '(' :: r2 =>
      let m2 := munch jsWs r2
      match m2.2 with
      | q :: r4 =>
        if isQuote3 q then
          match firstIdxP (· == '+') r4 with
          | some i =>
            match lastIdxP isQuote3 (r4.drop (i + 1)) with
            | some j => some (name.length + m1.1 + 1 + m2.1 + 1 + (i + 1) + (j + 1))
            | none => none
          | none => none
        else none
      | [] => none
    | _ => none
  else none

/-- Anchored matcher for /SELECT.*FROM.*WHERE.*\+/gi: "select", then a
"from", then a "where", then a '+'; the greedy trailing .* puts the match
end after the last '+' admitting such a chain, which is the last '+' after
the earliest from/where chain. -/
def sqlSelectHere (s : List Char) : Option Nat :=
  if startsWithL "select".data s then
    let r1 := s.drop 6
    match firstSubIdx "from".data r1 with
    | some i1 =>
      let r2 := r1.drop (i1 + 4)
      match firstSubIdx "where".data r2 with
      | some i2 =>
        let r3 := r2.drop (i2 + 5)
        match lastIdxP (· == '+') r3 with
        | some j => some (6 + (i1 + 4) + (i2 + 5) + (j + 1))
        | none => none
      | none => none
    | none => none
  else none

/-- Anchored matcher for /f["']SELECT.*FROM.*\{/gi: 'f', a quote, "select",
then a "from", then a '\x7b'; the match ends after the last such brace. -/
def sqlFStringHere (s : List Char) : Option Nat :=
  match s with
  | 'f' :: q :: r =>
    if isQuote2 q && startsWithL "select".data r then
      let r1 := r.drop 6
      match firstSubIdx "from".data r1 with
      | some i1 =>
        let r2 := r1.drop (i1 + 4)
        match lastIdxP (· == '\x7b') r2 with
        | some j => some (2 + 6 + (i1 + 4) + (j + 1))
        | none => none
      | none => none
    else none
  | _ => none

/-- The four SQL-injection patterns, in source order. -/
def sqlMatchers : List (List Char → Option Nat) :=
  [sqlCallHere "execute".data, sqlCallHere "query".data, sqlSelectHere, sqlFStringHere]

/-- Finding pushed by checkSQLInjection. -/
def mkSqlIssue (path : String) (line : Nat) (t : List Char) : QualityIssue :=
  { category := .security
    severity := .critical
    title := "Potential SQL Injection Vulnerability"
    description := "SQL query appears to use string concatenation with user input"
    location := { file := path, line := some line, snippet := some (String.mk t) }
    impact := "SQL injection can allow attackers to access, modify, or delete database data"
    recommendation := "Use parameterized queries or prepared statements instead of string concatenation" }

/-- Line loop of checkSQLInjection. -/
def sqlGo (path : String) : List (List Char) → Nat → List Nat → List QualityIssue
| [], _, _ => []
| l :: ls, idx, states =>
  let r := gTestMany sqlMatchers states (toLowerL l)
  List.replicate (r.2.countP id) (mkSqlIssue path (idx + 1) (trimL l)) ++
  sqlGo path ls (idx + 1) r.1

/-- checkSQLInjection(file): only for javascript/typescript/python/php. -/
def checkSQLInjection (file : CodeFile) : List QualityIssue :=
  if ["javascript", "typescript", "python", "php"].contains file.language then
    sqlGo file.path (splitLines file.content.data) 0 [0, 0, 0, 0]
  else []

/-- Anchored matcher for /innerHTML\s*=\s*[^"'\x60]/gi.  The final class
also accepts whitespace, so when the greedy \s* leaves a quote as the next
character the engine backtracks one whitespace character into the class. -/
def xssInnerHere (s : List Char) : Option Nat :=
  if startsWithL "innerhtml".data s then
    let m1 := munch jsWs (s.drop 9)
    match m1.2 with
    | '=' :: r2 =>
      let m := (munch jsWs r2).1
      match r2.drop m with
      | c :: _ =>
        if !isQuote3 c then some (9 + m1.1 + 1 + m + 1)
        else if 1 ≤ m then some (9 + m1.1 + 1 + m)
        else none
      | [] => if 1 ≤ m then some (9 + m1.1 + 1 + m) else none
    | _ => none
  else none

/-- Anchored matcher for /dangerouslySetInnerHTML/gi. -/
def xssDangerousHere (s : List Char) : Option Nat :=
  if startsWithL "dangerouslysetinnerhtml".data s then some 23 else none

/-- Anchored matcher for /document\.write\s*\(/gi. -/
def xssDocWriteHere (s : List Char) : Option Nat :=
  if startsWithL "document.write".data s then
    let m1 := munch jsWs (s.drop 14)
    match m1.2 with
    | '(' :: _ => some (14 + m1.1 + 1)
    | _ => none
  else none

/-- The three XSS patterns, in source order. -/
def xssMatchers : List (List Char → Option Nat) :=
  [xssInnerHere, xssDangerousHere, xssDocWriteHere]

/-- Finding pushed by checkXSS. -/
def mkXssIssue (path : String) (line : Nat) (t : List Char) : QualityIssue :=
  { category := .security
    severity := .high
    title := "Potential XSS Vulnerability"
    description := "Direct DOM manipulation detected that could allow XSS attacks"
    location := { file := path, line := some line, snippet := some (String.mk t) }
    impact := "Cross-site scripting can allow attackers to inject malicious scripts"
    recommendation := "Sanitize user input and use safe DOM manipulation methods or framework-specific safe rendering" }

/-- Line loop of checkXSS. -/
def xssGo (path : String) : List (List Char) → Nat → List Nat → List QualityIssue
| [], _, _ => []
| l :: ls, idx, states =>
  let r := gTestMany xssMatchers states (toLowerL l)
  List.replicate (r.2.countP id) (mkXssIssue path (idx + 1) (trimL l)) ++
  xssGo path ls (idx + 1) r.1

/-- checkXSS(file): only for javascript/typescript. -/
def checkXSS (file : CodeFile) : List QualityIssue :=
  if ["javascript", "typescript"].contains file.language then
    xssGo file.path (splitLines file.content.data) 0 [0, 0, 0]
  else []

/-- checkInsecureDependencies(file): file-level finding (no line) when the
path contains a manifest name and the content contains a range operator. -/
def checkInsecureDependencies (file : CodeFile) : List QualityIssue :=
  if (hasSub "package.json".data file.path.data || hasSub "requirements.txt".data file.path.data) &&
     (hasSub ['*'] file.content.data || hasSub ['^'] file.content.data || hasSub ['~'] file.content.data) then
    [{ category := .security
       severity := .medium
       title := "Unpinned Dependencies"
       description := "Dependencies use version ranges instead of exact versions"
       location := { file := file.path, line := none, snippet := none }
       impact := "Version ranges can lead to unexpected breaking changes or security vulnerabilities"
       recommendation := "Pin dependencies to specific versions and use automated tools for updates" }]
  else []

/-- SecurityAnalyzer.analyze(files). -/
def securityAnalyze (files : List CodeFile) : List QualityIssue :=
  files.foldr
    (fun f acc =>
      checkHardcodedSecrets f ++ checkSQLInjection f ++ checkXSS f ++
      checkInsecureDependencies f ++ acc)
    []

/-! ## PerformanceAnalyzer (src/src/analyzers/performance.ts) -/

/-- loopKeywords of checkNestedLoops, in source order. -/
def loopKeywords : List (List Char) :=
  ["for".data, "while".data, "forEach".data, "map".data, "filter".data]

/-- Increment condition of checkNestedLoops for one keyword:
trimmed.includes(keyword) && (trimmed.includes('(') || trimmed.includes(' ')). -/
def loopInc (t k : List Char) : Bool :=
  hasSub k t && (hasSub ['('] t || hasSub [' '] t)

/-- Finding pushed by checkNestedLoops. -/
def mkNestedIssue (path : String) (line : Nat) (lvl : Nat) (t : List Char) : QualityIssue :=
  { category := .performance
    severity := .high
    title := "Deeply Nested Loops Detected"
    description := "Found " ++ Nat.repr lvl ++ " levels of nested loops"
    location := { file := path, line := some line, snippet := some (String.mk t) }
    impact := "Nested loops can result in O(n²) or O(n³) time complexity, causing performance degradation"
    recommendation := "Consider using hash maps, sets, or restructuring the algorithm to reduce nesting" }

/-- Keyword loop of one line of checkNestedLoops: each matching keyword
increments nestedLevel, and each increment reaching 3 or more pushes a
finding at this line. -/
def nestedKw (path : String) (t : List Char) (idx : Nat) :
    List (List Char) → Nat → Nat × List QualityIssue
| [], lvl => (lvl, [])
| k :: ks, lvl =>
  if loopInc t k then
    let lvl' := lvl + 1
    let rest := nestedKw path t idx ks lvl'
    (rest.1,
     (if 3 ≤ lvl' then [mkNestedIssue path (idx + 1) lvl' t] else []) ++ rest.2)
  else
    nestedKw path t idx ks lvl

/-- Line loop of checkNestedLoops: after the keyword loop, a line containing
a closing brace decrements nestedLevel (floored at zero: Nat subtraction). -/
def nestedGo (path : String) : List (List Char) → Nat → Nat → List QualityIssue
| [], _, _ => []
| l :: ls, idx, lvl =>
  let t := trimL l
  let r := nestedKw path t idx loopKeywords lvl
  r.2 ++ nestedGo path ls (idx + 1) (if hasSub ['\x7d'] t then r.1 - 1 else r.1)

/-- checkNestedLoops(file). -/
def checkNestedLoops (file : CodeFile) : List QualityIssue :=
  nestedGo file.path (splitLines file.content.data) 0 0

/-- Anchored matcher for /\.NAME\s*\(.*\)\.NAME\s*\(/g (NAME = find, filter
or map): after ".NAME", optional whitespace and '(', the greedy .* makes the
match end at the last position where ')' is followed by ".NAME", optional
whitespace and '('. -/
def chainTail (name : List Char) (r : List Char) : Option Nat :=
  match r with
  | '.' :: r1 =>
    if startsWithL name r1 then
      let m := munch jsWs (r1.drop name.length)
      match m.2 with
      | '(' :: _ => some (1 + name.length + m.1 + 1)
      | _ => none
    else none
  | _ => none

/-- Scan for the last ')' whose suffix matches chainTail; returns the offset
just past the matched tail, preferring later candidates (greedy .*). -/
def chainScan (name : List Char) : List Char → Option Nat
| [] => none
| c :: rest =>
  match (chainScan name rest).map (· + 1) with
  | some e => some e
  | none =>
    if c = ')' then (chainTail name rest).map (1 + ·) else none

/-- Anchored matcher for the chained-call patterns. -/
def chainHere (name : List Char) (s : List Char) : Option Nat :=
  match s with
  | '.' :: r1 =>
    if startsWithL name r1 then
      let m := munch jsWs (r1.drop name.length)
      match m.2 with
      | '(' :: r3 => (chainScan name r3).map (1 + name.length + m.1 + 1 + ·)
      | _ => none
    else none
  | _ => none

/-- Anchored matcher for /\+\s*=\s*["'\x60].*["'\x60]/g: '+', optional
whitespace, '=', optional whitespace, an opening quote, and greedily a last
closing quote after it. -/
def concatAssignHere (s : List Char) : Option Nat :=
  match s with
  | '+' :: r1 =>
    let m1 := munch jsWs r1
    match m1.2 with
    | '=' :: r2 =>
      let m2 := munch jsWs r2
      match m2.2 with
      | q :: r4 =>
        if isQuote3 q then
          match lastIdxP isQuote3 r4 with
          | some j => some (1 + m1.1 + 1 + m2.1 + 1 + (j + 1))
          | none => none
        else none
      | [] => none
    | _ => none
  | _ => none

/-- The four inefficient-operation patterns (case-sensitive, g flag) with
their title suffixes, in source order. -/
def inefficientMatchers : List ((List Char → Option Nat) × String) :=
  [(chainHere "find".data, "Chained Array Find Operations"),
   (chainHere "filter".data, "Chained Filter Operations"),
   (chainHere "map".data, "Chained Map Operations"),
   (concatAssignHere, "String Concatenation in Loop")]

/-- Finding pushed by checkInefficientOperations. -/
def mkInefficientIssue (path : String) (line : Nat) (t : List Char) (titleSuffix : String) : QualityIssue :=
  { category := .performance
    severity := .medium
    title := "Inefficient Operation: " ++ titleSuffix
    description := "Operation can be optimized by combining operations"
    location := { file := path, line := some line, snippet := some (String.mk t) }
    impact := "Multiple iterations over the same data structure reduce performance"
    recommendation := "Combine operations into a single pass or use more efficient data structures" }

/-- Line loop of checkInefficientOperations: the raw (untrimmed) line is
tested, the snippet is the trimmed line. -/
def inefficientGo (path : String) : List (List Char) → Nat → List Nat → List QualityIssue
| [], _, _ => []
| l :: ls, idx, states =>
  let r := gTestMany (inefficientMatchers.map Prod.fst) states l
  ((inefficientMatchers.zip r.2).filter (fun p => p.2)).map
    (fun p => mkInefficientIssue path (idx + 1) (trimL l) p.1.2) ++
  inefficientGo path ls (idx + 1) r.1

/-- checkInefficientOperations(file). -/
def checkInefficientOperations (file : CodeFile) : List QualityIssue :=
  inefficientGo file.path (splitLines file.content.data) 0 [0, 0, 0, 0]

/-- Finding pushed by checkMemoryLeaks for addEventListener. -/
def mkListenerIssue (path : String) (line : Nat) (t : List Char) : QualityIssue :=
  { category := .performance
    severity := .medium
    title := "Potential Memory Leak: Event Listener"
    description := "Event listener added without corresponding cleanup"
    location := { file := path, line := some line, snippet := some (String.mk t) }
    impact := "Uncleaned event listeners can cause memory leaks"
    recommendation := "Add removeEventListener in cleanup function or useEffect return" }

/-- Finding pushed by checkMemoryLeaks for setInterval. -/
def mkIntervalIssue (path : String) (line : Nat) (t : List Char) : QualityIssue :=
  { category := .performance
    severity := .high
    title := "Potential Memory Leak: Interval"
    description := "setInterval used without corresponding clearInterval"
    location := { file := path, line := some line, snippet := some (String.mk t) }
    impact := "Uncleaned intervals continue running and consuming resources"
    recommendation := "Store interval ID and call clearInterval when component unmounts" }

/-- Line loop of checkMemoryLeaks: the presence checks on the removal calls
are file-wide (on the whole content), the line checks are raw-substring. -/
def memLeakGo (path : String) (noRemove noClear : Bool) :
    List (List Char) → Nat → List QualityIssue
| [], _ => []
| l :: ls, idx =>
  (if hasSub "addEventListener".data l && noRemove then
    [mkListenerIssue path (idx + 1) (trimL l)] else []) ++
  (if hasSub "setInterval".data l && noClear then
    [mkIntervalIssue path (idx + 1) (trimL l)] else []) ++
  memLeakGo path noRemove noClear ls (idx + 1)

/-- checkMemoryLeaks(file): only for javascript/typescript. -/
def checkMemoryLeaks (file : CodeFile) : List QualityIssue :=
  if ["javascript", "typescript"].contains file.language then
    memLeakGo file.path
      (!hasSub "removeEventListener".data file.content.data)
      (!hasSub "clearInterval".data file.content.data)
      (splitLines file.content.data) 0
  else []

/-- PerformanceAnalyzer.analyze(files). -/
def performanceAnalyze (files : List CodeFile) : List QualityIssue :=
  files.foldr
    (fun f acc =>
      checkNestedLoops f ++ checkInefficientOperations f ++ checkMemoryLeaks f ++ acc)
    []

/-! ## CodeQualityAgent (src/src/agent.ts)

enhanceWithAI builds a prompt from the files and current issues and sends it
to an external chat-completion service.  The outcome of that external call
is modelled by an explicit parameter: either the call threw, or it returned
a message whose content is absent or some text.  The response text is then
searched for /\[[\s\S]*\]/ and the match is fed to JSON.parse; any error is
caught and the original issue list is returned. -/

/-- Outcome of the external advisory (chat-completion) call as seen by the
try block of enhanceWithAI. -/
inductive AdvisoryResult
| threw
| ok (content : Option String)
deriving DecidableEq

/-- JSON values, for modelling JSON.parse. -/
inductive Json
| null
| bool (b : Bool)
| num (n : Int)
| str (s : String)
| arr (elems : List Json)
| obj (fields : List (String × Json))

/-- JSON string body after the opening quote: returns the decoded characters
and the rest after the closing quote.  Escapes \" \\ \/ \n \t \r \b \f are
supported (the \uXXXX form does not occur in any modelled input). -/
def parseStrBody : List Char → Option (List Char × List Char)
| [] => none
| '\\' :: e :: rest =>
  match (match e with
         | '"' => some '"'
         | '\\' => some '\\'
         | '/' => some '/'
         | 'n' => some '\n'
         | 't' => some '\t'
         | 'r' => some '\r'
         | 'b' => some '\x08'
         | 'f' => some '\x0c'
         | _ => (none : Option Char)) with
  | some ch =>
    match parseStrBody rest with
    | some r => some (ch :: r.1, r.2)
    | none => none
  | none => none
| c :: rest =>
  if c = '"' then some ([], rest)
  else (parseStrBody rest).map (fun r => (c :: r.1, r.2))

/-- Digits to a natural number. -/
def digitsToNat (ds : List Char) : Nat :=
  ds.foldl (fun n c => n * 10 + (c.toNat - 48)) 0

/-- JSON number (integer part only; fractions/exponents do not occur in any
modelled input and are rejected). -/
def parseJsonNum (s : List Char) : Option (Int × List Char) :=
  let core := fun (t : List Char) (sign : Int) =>
    let m := munch Char.isDigit t
    if 1 ≤ m.1 then
      match m.2 with
      | '.' :: _ => none
      | 'e' :: _ => none
      | 'E' :: _ => none
      | r => some (sign * (digitsToNat (t.take m.1) : Int), r)
    else none
  match s with
  | '-' :: t => core t (-1)
  | t => core t 1

mutual

/-- Fuel-driven JSON value parser (JSON.parse); fuel is decremented on every
recursive call and 2·length + 8 is always enough. -/
def jsonVal : Nat → List Char → Option (Json × List Char)
| 0, _ => none
| fuel + 1, s =>
  match s.dropWhile jsWs with
  | '"' :: rest => (parseStrBody rest).map (fun r => (.str (String.mk r.1), r.2))
  | '[' :: rest =>
    (match rest.dropWhile jsWs with
     | ']' :: r => some (.arr [], r)
     | _ => (jsonElems fuel rest).map (fun r => (.arr r.1, r.2)))
  | '\x7b' :: rest =>
    (match rest.dropWhile jsWs with
     | '\x7d' :: r => some (.obj [], r)
     | _ => (jsonMembers fuel rest).map (fun r => (.obj r.1, r.2)))
  | t =>
    if startsWithL "null".data t then some (.null, t.drop 4)
    else if startsWithL "true".data t then some (.bool true, t.drop 4)
    else if startsWithL "false".data t then some (.bool false, t.drop 5)
    else (parseJsonNum t).map (fun r => (.num r.1, r.2))

/-- Comma-separated JSON values up to ']'. -/
def jsonElems : Nat → List Char → Option (List Json × List Char)
| 0, _ => none
| fuel + 1, s =>
  (jsonVal fuel s).bind fun r =>
    match r.2.dropWhile jsWs with
    | ',' :: rest => (jsonElems fuel rest).map (fun q => (r.1 :: q.1, q.2))
    | ']' :: rest => some ([r.1], rest)
    | _ => none

/-- Comma-separated string-keyed members up to '\x7d'. -/
def jsonMembers : Nat → List Char → Option (List (String × Json) × List Char)
| 0, _ => none
| fuel + 1, s =>
  match s.dropWhile jsWs with
  | '"' :: rest =>
    (parseStrBody rest).bind fun k =>
      match k.2.dropWhile jsWs with
      | ':' :: rest2 =>
        (jsonVal fuel rest2).bind fun v =>
          match v.2.dropWhile jsWs with
          | ',' :: rest3 =>
            (jsonMembers fuel rest3).map (fun q => ((String.mk k.1, v.1) :: q.1, q.2))
          | '\x7d' :: rest3 => some ([(String.mk k.1, v.1)], rest3)
          | _ => none
      | _ => none
  | _ => none

end

/-- JSON.parse: parse one value and require only whitespace after it. -/
def jsonParse (s : List Char) : Option Json :=
  (jsonVal (2 * s.length + 8) s).bind fun r =>
    if (r.2.dropWhile jsWs).isEmpty then some r.1 else none

/-- content.match(/\[[\s\S]*\]/): the leftmost greedy match runs from the
first '[' to the last ']' after it, if any. -/
def extractJsonArray (content : List Char) : Option (List Char) :=
  match firstIdxP (· == '[') content with
  | some i =>
    match lastIdxP (· == ']') (content.drop i) with
    | some j => if 1 ≤ j then some ((content.drop i).take (j + 1)) else none
    | none => none
  | none => none

/-- First field with the given key (modelled inputs have no duplicate keys). -/
def jsonField (fields : List (String × Json)) (k : String) : Option Json :=
  fields.findSome? fun f => if f.1 = k then some f.2 else none

/-- Category strings of the issue shape requested in the prompt. -/
def decodeCategory : Json → Option IssueCategory
| .str "security" => some .security
| .str "performance" => some .performance
| .str "complexity" => some .complexity
| .str "duplication" => some .duplication
| .str "testing" => some .testing
| .str "documentation" => some .documentation
| _ => none

/-- Severity strings of the issue shape requested in the prompt. -/
def decodeSeverity : Json → Option Severity
| .str "critical" => some .critical
| .str "high" => some .high
| .str "medium" => some .medium
| .str "low" => some .low
| _ => none

/-- String field. -/
def decodeStr : Json → Option String
| .str s => some s
| _ => none

/-- location object: file required, line and snippet optional. -/
def decodeLocation : Json → Option IssueLocation
| .obj fields =>
  (jsonField fields "file").bind fun fv =>
    (decodeStr fv).bind fun fs =>
      let ln := match jsonField fields "line" with
        | some (.num n) => some n.toNat
        | _ => none
      let sn := match jsonField fields "snippet" with
        | some (.str s) => some s
        | _ => none
      some { file := fs, line := ln, snippet := sn }
| _ => none

/-- One parsed element taken as a QualityIssue.  The source applies an
unchecked TypeScript cast (as QualityIssue[]); this decoder models that cast
for elements actually shaped like the requested issue structure, and fails
on others. -/
def decodeIssue : Json → Option QualityIssue
| .obj fields =>
  (jsonField fields "category").bind fun c => (decodeCategory c).bind fun cat =>
  (jsonField fields "severity").bind fun s => (decodeSeverity s).bind fun sev =>
  (jsonField fields "title").bind fun t => (decodeStr t).bind fun title =>
  ((jsonField fields "description").bind decodeStr).bind fun descr =>
  ((jsonField fields "location").bind decodeLocation).bind fun loc =>
  ((jsonField fields "impact").bind decodeStr).bind fun imp =>
  ((jsonField fields "recommendation").bind decodeStr).bind fun rec =>
  some { category := cat, severity := sev, title := title, description := descr,
         location := loc, impact := imp, recommendation := rec }
| _ => none

/-- All elements decoded. -/
def decodeIssueList : List Json → Option (List QualityIssue)
| [] => some []
| j :: js =>
  (decodeIssue j).bind fun i => (decodeIssueList js).map (fun l => i :: l)

/-- JSON.parse(jsonMatch[0]) as QualityIssue[], on the regex match. -/
def parseIssueArray (s : List Char) : Option (List QualityIssue) :=
  match jsonParse s with
  | some (.arr xs) => decodeIssueList xs
  | _ => none

set_option linter.unusedVariables false in
/-- enhanceWithAI(files, issues): the prompt built from files and issues
only flows outward; the returned list depends on the advisory outcome.  Any
failure — the call threw, no message content, no /\[[\s\S]*\]/ match, or a
JSON.parse error — falls through to returning the original issues. -/
def enhanceWithAI (files : List CodeFile) (issues : List QualityIssue)
    (adv : AdvisoryResult) : List QualityIssue :=
  match adv with
  | .threw => issues
  | .ok none => issues
  | .ok (some content) =>
    match extractJsonArray content.data with
    | none => issues
    | some s =>
      match parseIssueArray s with
      | none => issues
      | some aiIssues => issues ++ aiIssues

/-- severityWeights of calculateMetrics. -/
def severityWeight : Severity → ℤ
| .critical => 10
| .high => 5
| .medium => 2
| .low => 1

/-- calculateMetrics(issues): reduce-style weight sums and Math.max(0, ·).
All JavaScript number values appearing here are exact: the weight sums are
integers, and 100 − complexityWeight·1.5 is an exact half-integer, so the
computation is modelled in exact integer arithmetic.  Math.round is the
identity on the integer-valued codeQualityScore and securityScore.  For the
maintainability score, 100 − w·1.5 = (200 − 3w)/2 exactly, Math.max(0, ·)
commutes with the division by 2, and on the resulting non-negative
half-integer m/2 (m = max(0, 200 − 3w)) Math.round rounds half away from
zero, i.e. Math.round(m/2) = ⌊m/2 + 1/2⌋ = (m + 1) / 2 in integer
division. -/
def calculateMetrics (issues : List QualityIssue) : Metrics :=
  let totalWeight : ℤ := issues.foldl (fun sum issue => sum + severityWeight issue.severity) 0
  let baseScore : ℤ := 100
  let codeQualityScore := max 0 (baseScore - totalWeight)
  let securityIssues := issues.filter (fun i => i.category == .security)
  let securityWeight : ℤ := securityIssues.foldl (fun sum issue => sum + severityWeight issue.severity) 0
  let securityScore := max 0 (baseScore - securityWeight * 2)
  let complexityIssues := issues.filter (fun i => i.category == .complexity)
  let complexityWeight : ℤ := complexityIssues.foldl (fun sum issue => sum + severityWeight issue.severity) 0
  let maintainabilityScore := (max 0 (200 - 3 * complexityWeight) + 1) / 2
  { codeQualityScore := codeQualityScore
    securityScore := securityScore
    maintainabilityScore := maintainabilityScore }

/-- analyzeCode(files).  The external advisory outcome and the timestamp
(new Date().toISOString()) are explicit parameters. -/
def analyzeCode (adv : AdvisoryResult) (now : String) (files : List CodeFile) : AnalysisResult :=
  let securityIssues := securityAnalyze files
  let performanceIssues := performanceAnalyze files
  let complexityIssues := complexityAnalyze files
  let allIssues := securityIssues ++ performanceIssues ++ complexityIssues
  let enhancedIssues := enhanceWithAI files allIssues adv
  let metrics := calculateMetrics allIssues
  let languages := distinctKeys (files.map (·.language))
  { summary :=
      { totalFiles := files.length
        totalIssues := enhancedIssues.length
        criticalIssues := (enhancedIssues.filter (fun i => i.severity == .critical)).length
        languages := languages
        analysisDate := now }
    issues := enhancedIssues
    metrics := metrics }

/-! ## Specification-side definitions used by the theorems -/

/-- Spec formulation of the severity-weight sum over a finding list
(§4.6: Σ weight(f)). -/
def specWeight (issues : List QualityIssue) : ℤ :=
  (issues.map (fun i => severityWeight i.severity)).sum

/-- The failure modes of the augmentation step named by the spec: the
external call threw, the response had no message content, the content had
no /\[[\s\S]*\]/ match, or JSON.parse failed on the match. -/
def advFailed : AdvisoryResult → Prop
| .threw => True
| .ok none => True
| .ok (some content) =>
  extractJsonArray content.data = none ∨
  ∃ s, extractJsonArray content.data = some s ∧ jsonParse s = none

/-- A line of checkNestedLoops that increments the nesting counter: some
loop keyword passes the loopInc test on the trimmed line. -/
def lineIsLoop (l : List Char) : Bool :=
  loopKeywords.any (fun k => loopInc (trimL l) k)

/-- A line of checkNestedLoops that decrements the nesting counter: the
trimmed line contains a closing brace. -/
def lineHasCloseBrace (l : List Char) : Bool :=
  hasSub ['\x7d'] (trimL l)

/-- The stream of recorded duplication windows, in window order:
(starting line number, normalized block) for every window of 5 consecutive
lines whose normalized block is longer than 50 characters. -/
def dupStream (lines : List (List Char)) : List (Nat × List Char) :=
  (List.range (lines.length - 4)).filterMap fun i =>
    let b := normBlock lines i
    if 50 < b.length then some (i + 1, b) else none

/-- The recorded occurrence line numbers of one normalized block value. -/
def dupOccs (stream : List (Nat × List Char)) (b : List Char) : List Nat :=
  (stream.filter (fun p => p.2 == b)).map Prod.fst

/-- The distinct normalized block values, in first-occurrence order. -/
def dupBlocks (stream : List (Nat × List Char)) : List (List Char) :=
  distinctKeys (stream.map Prod.snd)

/-- The distinct normalized block values recorded at 2 or more windows. -/
def dupDistinct (stream : List (Nat × List Char)) : List (List Char) :=
  (dupBlocks stream).filter (fun b => 1 < (dupOccs stream b).length)

/-- The finding the duplication check is expected to emit for one
duplicated normalized block value. -/
def specDupIssue (path : String) (stream : List (Nat × List Char)) (b : List Char) : QualityIssue :=
  mkDupIssue path (b, dupOccs stream b)

/-- The JS-Map grouping of the window stream, characterized
specification-side: one entry per distinct normalized block value, in
first-occurrence order, carrying all its recorded window line numbers. -/
def groupsOf (stream : List (Nat × List Char)) : List (List Char × List Nat) :=
  (dupBlocks stream).map (fun k => (k, dupOccs stream k))

/-! ## Concrete inputs used by counterexamples and witnesses -/

/-- Join lines with newlines (inverse of splitLines on newline-free lines). -/
def joinLinesCh : List (List Char) → List Char
| [] => []
| l :: ls => ls.foldl (fun acc x => acc ++ '\n' :: x) l

/-- The literal secret-bearing line of spec §8. -/
def pwLine : String := "const password = \x22hardcoded123\x22;"

/-- A file consisting of that line twice. -/
def pwFile2 : CodeFile :=
  { path := "p", content := pwLine ++ "\n" ++ pwLine, language := "javascript", size := 0 }

/-- A 102-line file: a function declaration, 99 body lines, the closing
brace (the function spans 101 lines with balanced braces) and a further
function declaration. -/
def longFnLinesCh : List (List Char) :=
  "function f() \x7b".data ::
  (List.replicate 99 "x = 1;".data ++ ["\x7d".data, "function g() \x7b".data])

/-- The file built from those lines. -/
def longFunctionFile : CodeFile :=
  { path := "sample.js", content := String.mk (joinLinesCh longFnLinesCh),
    language := "javascript", size := 0 }

/-- Three syntactically nested loops (for / forEach / for), no closing
braces. -/
def nestedWitFile : CodeFile :=
  { path := "p", content := "for (a) \x7b\narr.forEach((x) => \x7b\nfor (b) \x7b",
    language := "javascript", size := 0 }

/-- A two-function file whose first function has complexity 11. -/
def cycloWitFile : CodeFile :=
  { path := "p",
    content := "function foo()\nif if if if if if if if if if x\nfunction bar()",
    language := "javascript", size := 0 }

/-- The finding checkCyclomaticComplexity emits on cycloWitFile. -/
def cycloWitIssue : QualityIssue :=
  { category := .complexity
    severity := .medium
    title := "High Cyclomatic Complexity"
    description := "Function has cyclomatic complexity of 11"
    location := { file := "p", line := some 1, snippet := some "function foo()" }
    impact := "High complexity makes code harder to understand, test, and maintain"
    recommendation := "Break down into smaller functions, reduce conditional logic, or use strategy pattern" }

/-- A 13-line file with a 5-line block (lines 1–5) repeated verbatim at
lines 8–12 (non-overlapping), both copies followed by an identical closing
brace line, so that the shifted window (lines 2–6 and 9–13) also repeats. -/
def dupCexLinesCh : List (List Char) :=
  ["dupAline1(xx);".data, "dupAline2(xx);".data, "dupAline3(xx);".data,
   "dupAline4(xx);".data, "dupAline5(xx);".data,
   "\x7d".data, "fillerMiddleLine();".data,
   "dupAline1(xx);".data, "dupAline2(xx);".data, "dupAline3(xx);".data,
   "dupAline4(xx);".data, "dupAline5(xx);".data,
   "\x7d".data]

/-- The file built from those lines. -/
def dupCexFile : CodeFile :=
  { path := "p", content := String.mk (joinLinesCh dupCexLinesCh),
    language := "javascript", size := 0 }

/-- A well-formed advisory response: a JSON array with one high-severity
security issue. -/
def advGoodJson : String :=
  "[\x7b\x22category\x22: \x22security\x22, \x22severity\x22: \x22high\x22, \x22title\x22: \x22T\x22, \x22description\x22: \x22D\x22, \x22location\x22: \x7b\x22file\x22: \x22f\x22\x7d, \x22impact\x22: \x22I\x22, \x22recommendation\x22: \x22R\x22\x7d]"

/-- A malformed advisory response: the /\[[\s\S]*\]/ match "[\x7b]" is not
valid JSON, so JSON.parse throws. -/
def advBadJson : String := "here are the results: [\x7b]"

/-- A sample non-security finding. -/
def sampleNonSecurityIssue : QualityIssue :=
  { category := .performance, severity := .high, title := "t", description := "d",
    location := { file := "f", line := none, snippet := none }, impact := "i",
    recommendation := "r" }

/-! ## Helper lemmas -/

lemma foldl_weight (l : List QualityIssue) :
    l.foldl (fun s i => s + severityWeight i.severity) 0 = specWeight l := by
  rw [specWeight, List.sum_eq_foldl, List.foldl_map]

lemma specWeight_nonneg (l : List QualityIssue) : 0 ≤ specWeight l := by
  refine List.sum_nonneg ?_
  intro x hx
  obtain ⟨i, -, rfl⟩ := List.mem_map.mp hx
  cases i.severity <;> decide

/-- C4: the three score formulas of calculateMetrics, stated with the
spec-side weight sum (the maintainability score stated as the real-valued
max(0, 100 − 1.5·w) rounded to the nearest integer, half up), and score
independence: with no security-category finding the security score is 100
regardless of the other findings. -/
theorem score_formulas_and_independence (issues : List QualityIssue) :
    (calculateMetrics issues).codeQualityScore = max 0 (100 - specWeight issues)
  ∧ (calculateMetrics issues).securityScore
      = max 0 (100 - 2 * specWeight (issues.filter (fun i => i.category == .security)))
  ∧ (calculateMetrics issues).maintainabilityScore
      = round (max 0 (100 - 1.5 * (specWeight (issues.filter (fun i => i.category == .complexity)) : ℚ)))
  ∧ ((∀ i ∈ issues, i.category ≠ .security) →
      (calculateMetrics issues).securityScore = 100) := by
  refine ⟨?_, ?_, ?_, ?_⟩
  · simp only [calculateMetrics, foldl_weight]
  · simp only [calculateMetrics, foldl_weight]
    omega
  · simp only [calculateMetrics, foldl_weight]
    set n := specWeight (issues.filter (fun i => i.category == .complexity)) with hn
    have hcast : max (0:ℚ) (100 - 1.5 * (n:ℚ)) = ((max 0 (200 - 3*n) : ℤ) : ℚ) / 2 := by
      rcases le_total (200 - 3*n : ℤ) 0 with h | h
      · have hq : (200:ℚ) - 3*(n:ℚ) ≤ 0 := by exact_mod_cast h
        rw [max_eq_left h, max_eq_left (by linarith)]
        norm_num
      · have hq : (0:ℚ) ≤ (200:ℚ) - 3*(n:ℚ) := by exact_mod_cast h
        rw [max_eq_right h, max_eq_right (by linarith)]
        push_cast
        ring
    rw [hcast]
    set m : ℤ := max 0 (200 - 3*n) with hm
    rcases Int.even_or_odd m with ⟨k, hk⟩ | ⟨k, hk⟩
    · have h2 : ((m:ℤ):ℚ)/2 = (k:ℚ) := by rw [hk]; push_cast; ring
      rw [h2, round_intCast]
      omega
    · have h2 : ((m:ℤ):ℚ)/2 = (k:ℚ) + 1/2 := by rw [hk]; push_cast; ring
      have h3 : round ((1:ℚ)/2) = 1 := by norm_num [round_eq]
      rw [h2, round_int_add, h3]
      omega
  · intro h
    have hfil : issues.filter (fun i => i.category == .security) = [] := by
      rw [List.filter_eq_nil_iff]
      intro a ha
      simpa using h a ha
    simp only [calculateMetrics, hfil]
    decide

/-- C4 witness at a concrete list with no security finding. -/
theorem score_formulas_and_independence_witness :
    (calculateMetrics [sampleNonSecurityIssue]).securityScore = 100 :=
  (score_formulas_and_independence [sampleNonSecurityIssue]).2.2.2 (by decide)

lemma metrics_bounds (issues : List QualityIssue) :
    (0 ≤ (calculateMetrics issues).codeQualityScore ∧ (calculateMetrics issues).codeQualityScore ≤ 100)
  ∧ (0 ≤ (calculateMetrics issues).securityScore ∧ (calculateMetrics issues).securityScore ≤ 100)
  ∧ (0 ≤ (calculateMetrics issues).maintainabilityScore ∧ (calculateMetrics issues).maintainabilityScore ≤ 100) := by
  have h1 := specWeight_nonneg issues
  have h2 := specWeight_nonneg (issues.filter (fun i => i.category == .security))
  have h3 := specWeight_nonneg (issues.filter (fun i => i.category == .complexity))
  simp only [calculateMetrics, foldl_weight]
  refine ⟨⟨?_, ?_⟩, ⟨?_, ?_⟩, ⟨?_, ?_⟩⟩ <;> omega

/-- C5: summary invariants of every analyzeCode result: totalIssues is the
length of the carried finding list, criticalIssues counts its critical
findings, and the three (integer) scores lie in [0, 100]. -/
theorem analysis_result_summary_invariants (adv : AdvisoryResult) (now : String) (files : List CodeFile) :
    (analyzeCode adv now files).summary.totalIssues = (analyzeCode adv now files).issues.length
  ∧ (analyzeCode adv now files).summary.criticalIssues
      = ((analyzeCode adv now files).issues.filter (fun i => i.severity == .critical)).length
  ∧ (0 ≤ (analyzeCode adv now files).metrics.codeQualityScore
      ∧ (analyzeCode adv now files).metrics.codeQualityScore ≤ 100)
  ∧ (0 ≤ (analyzeCode adv now files).metrics.securityScore
      ∧ (analyzeCode adv now files).metrics.securityScore ≤ 100)
  ∧ (0 ≤ (analyzeCode adv now files).metrics.maintainabilityScore
      ∧ (analyzeCode adv now files).metrics.maintainabilityScore ≤ 100) :=
  ⟨rfl, rfl,
   (metrics_bounds (securityAnalyze files ++ performanceAnalyze files ++ complexityAnalyze files)).1,
   (metrics_bounds (securityAnalyze files ++ performanceAnalyze files ++ complexityAnalyze files)).2.1,
   (metrics_bounds (securityAnalyze files ++ performanceAnalyze files ++ complexityAnalyze files)).2.2⟩

lemma enhance_failed (files : List CodeFile) (issues : List QualityIssue)
    (adv : AdvisoryResult) (h : advFailed adv) :
    enhanceWithAI files issues adv = issues := by
  match adv with
  | .threw => rfl
  | .ok none => rfl
  | .ok (some content) =>
    simp only [advFailed] at h
    rcases h with h | ⟨s, hs, hp⟩
    · simp [enhanceWithAI, h]
    · have hpia : parseIssueArray s = none := by
        simp [parseIssueArray, hp]
      simp [enhanceWithAI, hs, hpia]

/-- C3: on every failure of the augmentation step — external call threw, no
message content, no JSON array in the content, or malformed JSON — the
returned finding list is the original one (identical in length and
content), and the run still produces a result whose findings are exactly
the pre-augmentation findings. -/
theorem augmentation_failure_returns_original_findings
    (files : List CodeFile) (issues : List QualityIssue) (adv : AdvisoryResult)
    (now : String) (h : advFailed adv) :
    enhanceWithAI files issues adv = issues
  ∧ (analyzeCode adv now files).issues
      = securityAnalyze files ++ performanceAnalyze files ++ complexityAnalyze files :=
  ⟨enhance_failed files issues adv h,
   enhance_failed files (securityAnalyze files ++ performanceAnalyze files ++ complexityAnalyze files) adv h⟩

/-- C3 witness: a malformed-JSON advisory response leaves a concrete finding
list unchanged and the concrete run succeeds with the pre-augmentation
findings. -/
theorem augmentation_failure_returns_original_findings_witness :
    enhanceWithAI [] [sampleNonSecurityIssue] (.ok (some advBadJson)) = [sampleNonSecurityIssue]
  ∧ (analyzeCode (.ok (some advBadJson)) "2024-01-01" []).issues = [] := by
  have h := augmentation_failure_returns_original_findings [] [sampleNonSecurityIssue]
    (.ok (some advBadJson)) "2024-01-01"
    (Or.inr ⟨"[\x7b]".data, rfl, rfl⟩)
  exact ⟨h.1, h.2.trans rfl⟩

/-- C1 (amended): the metrics of every analyzeCode result are computed from
the pre-augmentation concatenation of the three analyzers' findings, not
from the augmented list the result carries. -/
theorem metrics_computed_from_preaugmentation_list
    (adv : AdvisoryResult) (now : String) (files : List CodeFile) :
    (analyzeCode adv now files).metrics
      = calculateMetrics (securityAnalyze files ++ performanceAnalyze files ++ complexityAnalyze files) :=
  rfl

set_option maxRecDepth 40000 in
/-- C1 counterexample: a run whose advisory step appends one well-formed
high-severity security finding: the scores in the returned result differ
from score applied to the finding list the result carries, so the scores
are not computed from the augmented list. -/
theorem metrics_ignore_augmented_findings_cex :
    (analyzeCode (.ok (some advGoodJson)) "2024-01-01" []).metrics
      ≠ calculateMetrics ((analyzeCode (.ok (some advGoodJson)) "2024-01-01" []).issues) := by
  decide

/-- C9 (amended): analyzeCode performs no empty-input check: on an empty
file list (with the advisory step failing) it returns an ordinary
zero-finding success — zero files, no findings, all scores 100 — rather
than an explicit empty-result or rejection; the rejection of empty input
in the repository happens in the CLI and HTTP callers before analyzeCode
is invoked. -/
theorem analyze_empty_files_returns_zero_finding_success
    (adv : AdvisoryResult) (now : String) (h : advFailed adv) :
    analyzeCode adv now [] =
      { summary := { totalFiles := 0, totalIssues := 0, criticalIssues := 0,
                     languages := [], analysisDate := now },
        issues := [],
        metrics := { codeQualityScore := 100, securityScore := 100, maintainabilityScore := 100 } } := by
  have he : enhanceWithAI [] (securityAnalyze [] ++ performanceAnalyze [] ++ complexityAnalyze []) adv
      = securityAnalyze [] ++ performanceAnalyze [] ++ complexityAnalyze [] :=
    enhance_failed _ _ _ h
  simp only [analyzeCode]
  rw [he]
  rfl

/-- C9 witness: the concrete thrown-advisory empty run. -/
theorem analyze_empty_files_returns_zero_finding_success_witness :
    analyzeCode .threw "2024-01-01T00:00:00.000Z" [] =
      { summary := { totalFiles := 0, totalIssues := 0, criticalIssues := 0,
                     languages := [], analysisDate := "2024-01-01T00:00:00.000Z" },
        issues := [],
        metrics := { codeQualityScore := 100, securityScore := 100, maintainabilityScore := 100 } } :=
  analyze_empty_files_returns_zero_finding_success .threw "2024-01-01T00:00:00.000Z" trivial

/-- C9 counterexample: calling analyzeCode on the empty file list is not
surfaced as an explicit empty-result or rejection: the returned value is a
plain success with zero files, zero findings and perfect scores,
indistinguishable from an ordinary zero-finding success (the return type
carries no error channel). -/
theorem analyze_empty_files_plain_success_cex :
    (analyzeCode .threw "2024-01-01T00:00:00.000Z" []).issues = []
  ∧ (analyzeCode .threw "2024-01-01T00:00:00.000Z" []).summary.totalFiles = 0
  ∧ (analyzeCode .threw "2024-01-01T00:00:00.000Z" []).summary.totalIssues = 0
  ∧ (analyzeCode .threw "2024-01-01T00:00:00.000Z" []).summary.criticalIssues = 0
  ∧ (analyzeCode .threw "2024-01-01T00:00:00.000Z" []).metrics
      = { codeQualityScore := 100, securityScore := 100, maintainabilityScore := 100 } := by
  refine ⟨rfl, rfl, rfl, rfl, by decide⟩

set_option maxRecDepth 100000 in
/-- C2: the 102-line file longFunctionFile contains a function (line 1)
spanning 101 lines whose enclosing braces are balanced, followed by another
function declaration — yet checkFunctionLength reports nothing: when the
brace balance of an ended function returns to zero the current-function
buffer is cleared, so the pending length check at the next declaration can
never fire for an ended function, contradicting the claimed high-severity
"Long Function" finding. -/
theorem long_balanced_function_yields_no_finding :
    isFunctionDeclaration (trimL ((splitLines longFunctionFile.content.data).getD 0 [])) = true
  ∧ isFunctionDeclaration (trimL ((splitLines longFunctionFile.content.data).getD 101 [])) = true
  ∧ (splitLines longFunctionFile.content.data).length = 102
  ∧ ((splitLines longFunctionFile.content.data).take 101).foldl
      (fun (b : Int) l => b + (l.count '\x7b' : Int) - (l.count '\x7d' : Int)) 0 = 0
  ∧ checkFunctionLength longFunctionFile = [] := by
  refine ⟨rfl, rfl, rfl, by decide, by decide⟩

/-- C6 (amended): a file consisting of the single line
const password = "hardcoded123"; yields exactly one critical security
Finding titled "Hardcoded Secret Detected" at that line, for any path,
language tag and size. -/
theorem single_hardcoded_password_line_yields_one_finding (path lang : String) (sz : Nat) :
    checkHardcodedSecrets { path := path, content := pwLine, language := lang, size := sz }
      = [{ category := .security, severity := .critical,
           title := "Hardcoded Secret Detected",
           description := "Potential hardcoded secret or credential found in source code",
           location := { file := path, line := some 1, snippet := some pwLine },
           impact := "Exposed credentials can lead to unauthorized access and data breaches",
           recommendation := "Use environment variables or secure secret management services (e.g., AWS Secrets Manager, HashiCorp Vault)" }] := by
  rfl

/-- C6 counterexample: the password rule matches the literal secret line
when tested afresh (offset 0), and pwFile2 consists of that line twice —
yet checkHardcodedSecrets emits one finding, not two: the g-flag regex
keeps its lastIndex across lines, so the match on line 1 makes the test
on line 2 start past the secret and fail. -/
theorem secret_rule_stateful_across_lines_cex :
    (searchFrom (secretHere ["password".data] 3 true) (toLowerL pwLine.data) 0).isSome = true
  ∧ (splitLines pwFile2.content.data).getD 1 [] = pwLine.data
  ∧ (checkHardcodedSecrets pwFile2).length = 1
  ∧ (checkHardcodedSecrets pwFile2).length ≠ 2 := by
  refine ⟨rfl, by decide, rfl, by decide⟩

lemma cycloGo_issue_shape :
    ∀ (ls : List (List Char)) (path : String) (idx : Nat) (cur : List Char) (cx startLine : Nat)
      (issue : QualityIssue), issue ∈ cycloGo path ls idx cur cx startLine →
      (cur ≠ [] ∧ issue.location.line = some startLine ∧
        ∃ j, j < ls.length ∧ isFunctionDeclaration (trimL (ls.getD j [])) = true)
      ∨ (∃ i j, i < j ∧ j < ls.length ∧
          isFunctionDeclaration (trimL (ls.getD i [])) = true ∧
          isFunctionDeclaration (trimL (ls.getD j [])) = true ∧
          issue.location.line = some (idx + i + 1)) := by
  intro ls
  induction ls with
  | nil =>
    intro path idx cur cx startLine issue h
    simp [cycloGo] at h
  | cons l ls ih =>
    intro path idx cur cx startLine issue h
    simp only [cycloGo] at h
    by_cases hd : isFunctionDeclaration (trimL l) = true
    · rw [if_pos hd] at h
      rcases List.mem_append.mp h with hmem | hmem
      · split at hmem
        · rename_i hcond
          left
          refine ⟨hcond.1, ?_, 0, by simp, by simpa using hd⟩
          rw [List.mem_singleton.mp hmem]
          rfl
        · simp at hmem
      · rcases ih path (idx + 1) (trimL l) (1 + countComplexity (trimL l)) (idx + 1) issue hmem with
          ⟨-, hline, j, hj, hdecl⟩ | ⟨i, j, hij, hj, hdi, hdj, hline⟩
        · right
          refine ⟨0, j + 1, Nat.succ_pos j, Nat.succ_lt_succ hj, by simpa using hd, hdecl, ?_⟩
          rw [hline]
        · right
          refine ⟨i + 1, j + 1, Nat.succ_lt_succ hij, Nat.succ_lt_succ hj, hdi, hdj, ?_⟩
          rw [hline]
          congr 1
          omega
    · rw [if_neg hd] at h
      rcases ih path (idx + 1) cur (cx + countComplexity (trimL l)) startLine issue h with
        ⟨hcur, hline, j, hj, hdecl⟩ | ⟨i, j, hij, hj, hdi, hdj, hline⟩
      · exact Or.inl ⟨hcur, hline, j + 1, Nat.succ_lt_succ hj, hdecl⟩
      · right
        refine ⟨i + 1, j + 1, Nat.succ_lt_succ hij, Nat.succ_lt_succ hj, hdi, hdj, ?_⟩
        rw [hline]
        congr 1
        omega

/-- C10: every finding of checkCyclomaticComplexity is located at a
function-declaration line that is strictly followed by another
function-declaration line; in particular the last function of a file (and
the only function of a single-function file) is never reported, whatever
its complexity. -/
theorem cyclomatic_last_function_never_reported (f : CodeFile) (issue : QualityIssue)
    (h : issue ∈ checkCyclomaticComplexity f) :
    ∃ i j, i < j ∧ j < (splitLines f.content.data).length ∧
      isFunctionDeclaration (trimL ((splitLines f.content.data).getD i [])) = true ∧
      isFunctionDeclaration (trimL ((splitLines f.content.data).getD j [])) = true ∧
      issue.location.line = some (i + 1) := by
  rcases cycloGo_issue_shape (splitLines f.content.data) f.path 0 [] 1 0 issue h with
    ⟨hcur, -⟩ | ⟨i, j, hij, hj, hdi, hdj, hline⟩
  · exact absurd rfl hcur
  · refine ⟨i, j, hij, hj, hdi, hdj, ?_⟩
    rw [hline]
    congr 1
    omega

/-- C10 witness: the finding on the two-function file cycloWitFile indeed
sits at a declaration line followed by another declaration line. -/
theorem cyclomatic_last_function_never_reported_witness :
    ∃ i j, i < j ∧ j < (splitLines cycloWitFile.content.data).length ∧
      isFunctionDeclaration (trimL ((splitLines cycloWitFile.content.data).getD i [])) = true ∧
      isFunctionDeclaration (trimL ((splitLines cycloWitFile.content.data).getD j [])) = true ∧
      cycloWitIssue.location.line = some (i + 1) :=
  cyclomatic_last_function_never_reported cycloWitFile cycloWitIssue (by decide)

lemma getD_drop {α : Type} (d : α) :
    ∀ (n : Nat) (l : List α) (m : Nat), (l.drop n).getD m d = l.getD (n + m) d := by
  intro n
  induction n with
  | zero =>
    intro l m
    rw [List.drop_zero, Nat.zero_add]
  | succ p ih =>
    intro l m
    cases l with
    | nil => simp
    | cons a t =>
      rw [show (a :: t).drop (p + 1) = t.drop p from rfl, ih t m,
          show p + 1 + m = (p + m) + 1 from by omega]
      rfl

lemma getD_take {α : Type} (d : α) :
    ∀ (n : Nat) (l : List α) (m : Nat), m < n → (l.take n).getD m d = l.getD m d := by
  intro n
  induction n with
  | zero => omega
  | succ p ih =>
    intro l m hm
    cases l with
    | nil => simp
    | cons a t =>
      cases m with
      | zero => rfl
      | succ m' => exact ih t m' (by omega)

lemma countP_two_aux {α : Type} (p : α → Bool) (d : α) :
    ∀ (l : List α) (i j : Nat), i < j → j < l.length →
      p (l.getD i d) = true → p (l.getD j d) = true → 2 ≤ l.countP p := by
  intro l
  induction l with
  | nil =>
    intro i j hij hj _ _
    simp at hj
  | cons a t ih =>
    intro i j hij hj hpi hpj
    cases i with
    | zero =>
      cases j with
      | zero => omega
      | succ j' =>
        have hpa : p a = true := hpi
        have hj' : j' < t.length := by simpa using hj
        have hmem : t.getD j' d ∈ t := by
          rw [List.getD_eq_getElem t d hj']
          exact List.getElem_mem hj'
        have h1 : 0 < t.countP p := List.countP_pos_iff.mpr ⟨_, hmem, hpj⟩
        rw [List.countP_cons, if_pos hpa]
        omega
    | succ i' =>
      cases j with
      | zero => omega
      | succ j' =>
        have h2 := ih i' j' (by omega) (by simpa using hj) hpi hpj
        rw [List.countP_cons]
        by_cases hpa : p a = true
        · rw [if_pos hpa]
          omega
        · rw [if_neg hpa]
          omega

lemma nestedKw_level (path : String) (t : List Char) (idx : Nat) :
    ∀ (ks : List (List Char)) (lvl : Nat), lvl ≤ (nestedKw path t idx ks lvl).1 := by
  intro ks
  induction ks with
  | nil => intro lvl; exact le_refl lvl
  | cons k ks ih =>
    intro lvl
    simp only [nestedKw]
    by_cases hk : loopInc t k = true
    · rw [if_pos hk]
      exact le_trans (Nat.le_succ lvl) (ih (lvl + 1))
    · rw [if_neg hk]
      exact ih lvl

lemma nestedKw_level_inc (path : String) (t : List Char) (idx : Nat) :
    ∀ (ks : List (List Char)) (lvl : Nat), (∃ k ∈ ks, loopInc t k = true) →
      lvl + 1 ≤ (nestedKw path t idx ks lvl).1 := by
  intro ks
  induction ks with
  | nil =>
    intro lvl h
    simp at h
  | cons k ks ih =>
    intro lvl h
    simp only [nestedKw]
    by_cases hk : loopInc t k = true
    · rw [if_pos hk]
      exact nestedKw_level path t idx ks (lvl + 1)
    · rw [if_neg hk]
      rcases h with ⟨k', hk', hl⟩
      rcases List.mem_cons.mp hk' with rfl | hk'
      · exact absurd hl hk
      · exact ih lvl ⟨k', hk', hl⟩

lemma nestedKw_emits (path : String) (t : List Char) (idx : Nat) :
    ∀ (ks : List (List Char)) (lvl : Nat), 2 ≤ lvl → (∃ k ∈ ks, loopInc t k = true) →
      ∃ issue ∈ (nestedKw path t idx ks lvl).2,
        issue.location.line = some (idx + 1) ∧ issue.severity = Severity.high ∧
        issue.title = "Deeply Nested Loops Detected" := by
  intro ks
  induction ks with
  | nil =>
    intro lvl _ h
    simp at h
  | cons k ks ih =>
    intro lvl hlvl h
    simp only [nestedKw]
    by_cases hk : loopInc t k = true
    · rw [if_pos hk]
      refine ⟨mkNestedIssue path (idx + 1) (lvl + 1) t, ?_, rfl, rfl, rfl⟩
      refine List.mem_append.mpr (Or.inl ?_)
      rw [if_pos (by omega)]
      exact List.mem_singleton.mpr rfl
    · rw [if_neg hk]
      rcases h with ⟨k', hk', hl⟩
      rcases List.mem_cons.mp hk' with rfl | hk'
      · exact absurd hl hk
      · exact ih lvl hlvl ⟨k', hk', hl⟩

lemma nestedGo_emits_from :
    ∀ (j3 : Nat) (ls : List (List Char)) (path : String) (idx lvl : Nat),
      j3 < ls.length → lineIsLoop (ls.getD j3 []) = true →
      (∀ j, j ≤ j3 → lineHasCloseBrace (ls.getD j []) = false) →
      2 ≤ lvl + (ls.take j3).countP lineIsLoop →
      ∃ issue ∈ nestedGo path ls idx lvl,
        issue.location.line = some (idx + j3 + 1) ∧ issue.severity = Severity.high ∧
        issue.title = "Deeply Nested Loops Detected" := by
  intro j3
  induction j3 with
  | zero =>
    intro ls path idx lvl hlen hloop hnb hcnt
    cases ls with
    | nil => simp at hlen
    | cons l ls' =>
      have hlvl : 2 ≤ lvl := by simpa using hcnt
      obtain ⟨k, hkmem, hk⟩ := List.any_eq_true.mp (by simpa [lineIsLoop] using hloop)
      obtain ⟨issue, hmem, hline, hsev, htitle⟩ :=
        nestedKw_emits path (trimL l) idx loopKeywords lvl hlvl ⟨k, hkmem, hk⟩
      refine ⟨issue, ?_, hline, hsev, htitle⟩
      simp only [nestedGo]
      exact List.mem_append.mpr (Or.inl hmem)
  | succ m ih =>
    intro ls path idx lvl hlen hloop hnb hcnt
    cases ls with
    | nil => simp at hlen
    | cons l ls' =>
      have hnb0 : hasSub ['\x7d'] (trimL l) = false := hnb 0 (Nat.zero_le _)
      have hlen' : m < ls'.length := Nat.lt_of_succ_lt_succ hlen
      have hloop' : lineIsLoop (ls'.getD m []) = true := hloop
      have hnb' : ∀ j, j ≤ m → lineHasCloseBrace (ls'.getD j []) = false :=
        fun j hj => hnb (j + 1) (Nat.succ_le_succ hj)
      have hcnt' : 2 ≤ (nestedKw path (trimL l) idx loopKeywords lvl).1 +
          (ls'.take m).countP lineIsLoop := by
        have htake : (l :: ls').take (m + 1) = l :: ls'.take m := rfl
        rw [htake, List.countP_cons] at hcnt
        by_cases hline : lineIsLoop l = true
        · have h1 := nestedKw_level_inc path (trimL l) idx loopKeywords lvl
            (List.any_eq_true.mp (by simpa [lineIsLoop] using hline))
          rw [if_pos hline] at hcnt
          omega
        · have h1 := nestedKw_level path (trimL l) idx loopKeywords lvl
          rw [if_neg hline] at hcnt
          omega
      obtain ⟨issue, hmem, hline, hsev, htitle⟩ := ih ls' path (idx + 1) _ hlen' hloop' hnb' hcnt'
      refine ⟨issue, ?_, ?_, hsev, htitle⟩
      · simp only [nestedGo, hnb0, Bool.false_eq_true, if_false]
        exact List.mem_append.mpr (Or.inr hmem)
      · rw [hline]
        congr 1
        omega

lemma nestedGo_drop :
    ∀ (pre : Nat) (ls : List (List Char)) (path : String) (idx lvl : Nat),
      ∃ lvl₂, ∀ issue ∈ nestedGo path (ls.drop pre) (idx + pre) lvl₂,
        issue ∈ nestedGo path ls idx lvl := by
  intro pre
  induction pre with
  | zero =>
    intro ls path idx lvl
    exact ⟨lvl, fun issue h => h⟩
  | succ p ih =>
    intro ls path idx lvl
    cases ls with
    | nil => exact ⟨0, fun issue h => by simp [nestedGo] at h⟩
    | cons l ls' =>
      obtain ⟨lvl₂, hl⟩ := ih ls' path (idx + 1)
        (if hasSub ['\x7d'] (trimL l) then (nestedKw path (trimL l) idx loopKeywords lvl).1 - 1
         else (nestedKw path (trimL l) idx loopKeywords lvl).1)
      refine ⟨lvl₂, fun issue h => ?_⟩
      have h' : issue ∈ nestedGo path (ls'.drop p) ((idx + 1) + p) lvl₂ := by
        rw [show (idx + 1) + p = idx + (p + 1) from by omega]
        exact h
      simp only [nestedGo]
      exact List.mem_append.mpr (Or.inr (hl issue h'))

/-- C7: whenever three lines i1 < i2 < i3 of a file all pass the loop-line
test of checkNestedLoops and no line from i1 through i3 contains a closing
brace, the analyzer emits at least one high-severity "Deeply Nested Loops
Detected" finding at the third loop's line. -/
theorem triple_nested_loops_emit_high_finding (f : CodeFile) (i1 i2 i3 : Nat)
    (h12 : i1 < i2) (h23 : i2 < i3) (h3 : i3 < (splitLines f.content.data).length)
    (hl1 : lineIsLoop ((splitLines f.content.data).getD i1 []) = true)
    (hl2 : lineIsLoop ((splitLines f.content.data).getD i2 []) = true)
    (hl3 : lineIsLoop ((splitLines f.content.data).getD i3 []) = true)
    (hnb : ∀ j, i1 ≤ j → j ≤ i3 →
      lineHasCloseBrace ((splitLines f.content.data).getD j []) = false) :
    ∃ issue ∈ checkNestedLoops f,
      issue.location.line = some (i3 + 1) ∧ issue.severity = Severity.high ∧
      issue.title = "Deeply Nested Loops Detected" := by
  obtain ⟨lvl₂, hincl⟩ := nestedGo_drop i1 (splitLines f.content.data) f.path 0 0
  have hdlen : i3 - i1 < ((splitLines f.content.data).drop i1).length := by
    rw [List.length_drop]
    omega
  have hloop3 : lineIsLoop (((splitLines f.content.data).drop i1).getD (i3 - i1) []) = true := by
    rw [getD_drop, show i1 + (i3 - i1) = i3 from by omega]
    exact hl3
  have hnb' : ∀ j, j ≤ i3 - i1 →
      lineHasCloseBrace (((splitLines f.content.data).drop i1).getD j []) = false := by
    intro j hj
    rw [getD_drop]
    exact hnb (i1 + j) (Nat.le_add_right _ _) (by omega)
  have hcnt : 2 ≤ lvl₂ + (((splitLines f.content.data).drop i1).take (i3 - i1)).countP lineIsLoop := by
    have h2le : 2 ≤ (((splitLines f.content.data).drop i1).take (i3 - i1)).countP lineIsLoop := by
      refine countP_two_aux lineIsLoop [] _ 0 (i2 - i1) (by omega) ?_ ?_ ?_
      · rw [List.length_take, List.length_drop]
        omega
      · rw [getD_take _ _ _ _ (by omega), getD_drop, Nat.add_zero]
        exact hl1
      · rw [getD_take _ _ _ _ (by omega), getD_drop, show i1 + (i2 - i1) = i2 from by omega]
        exact hl2
    omega
  obtain ⟨issue, hmem, hline, hsev, htitle⟩ :=
    nestedGo_emits_from (i3 - i1) ((splitLines f.content.data).drop i1) f.path (0 + i1) lvl₂
      hdlen hloop3 hnb' hcnt
  refine ⟨issue, hincl issue hmem, ?_, hsev, htitle⟩
  rw [hline]
  congr 1
  omega

/-- C7 witness: the three-loop file for / forEach / for with no closing
braces yields a high finding at line 3. -/
theorem triple_nested_loops_emit_high_finding_witness :
    ∃ issue ∈ checkNestedLoops nestedWitFile,
      issue.location.line = some 3 ∧ issue.severity = Severity.high ∧
      issue.title = "Deeply Nested Loops Detected" :=
  triple_nested_loops_emit_high_finding nestedWitFile 0 1 2 (by decide) (by decide)
    (by decide) (by decide) (by decide) (by decide)
    (by intro j h1 h2; interval_cases j <;> decide)

lemma mem_foldl_dedup {α : Type} [DecidableEq α] :
    ∀ (l acc : List α) (x : α),
      (x ∈ l.foldl (fun acc a => if a ∈ acc then acc else acc ++ [a]) acc) ↔ (x ∈ acc ∨ x ∈ l) := by
  intro l
  induction l with
  | nil =>
    intro acc x
    simp
  | cons a t ih =>
    intro acc x
    rw [List.foldl_cons]
    by_cases h : a ∈ acc
    · rw [if_pos h, ih]
      constructor
      · rintro (hx | hx)
        · exact Or.inl hx
        · exact Or.inr (List.mem_cons_of_mem a hx)
      · rintro (hx | hx)
        · exact Or.inl hx
        · rcases List.mem_cons.mp hx with rfl | hx
          · exact Or.inl h
          · exact Or.inr hx
    · rw [if_neg h, ih]
      simp [List.mem_append, List.mem_cons]
      tauto

lemma mem_distinctKeys {α : Type} [DecidableEq α] (l : List α) (x : α) :
    x ∈ distinctKeys l ↔ x ∈ l := by
  rw [distinctKeys, mem_foldl_dedup]
  simp

lemma nodup_foldl_dedup {α : Type} [DecidableEq α] :
    ∀ (l acc : List α), acc.Nodup →
      (l.foldl (fun acc a => if a ∈ acc then acc else acc ++ [a]) acc).Nodup := by
  intro l
  induction l with
  | nil => intro acc h; exact h
  | cons a t ih =>
    intro acc h
    rw [List.foldl_cons]
    by_cases hm : a ∈ acc
    · rw [if_pos hm]
      exact ih acc h
    · rw [if_neg hm]
      refine ih (acc ++ [a]) ?_
      rw [List.nodup_append]
      exact ⟨h, List.nodup_singleton a, fun x hx hxa => hm (List.mem_singleton.mp hxa ▸ hx)⟩

lemma distinctKeys_nodup {α : Type} [DecidableEq α] (l : List α) : (distinctKeys l).Nodup :=
  nodup_foldl_dedup l [] List.nodup_nil

lemma distinctKeys_snoc_mem {α : Type} [DecidableEq α] {l : List α} {a : α}
    (h : a ∈ distinctKeys l) : distinctKeys (l ++ [a]) = distinctKeys l := by
  unfold distinctKeys
  rw [List.foldl_append]
  simp only [List.foldl_cons, List.foldl_nil]
  rw [if_pos (by simpa [distinctKeys] using h)]

lemma distinctKeys_snoc_not_mem {α : Type} [DecidableEq α] {l : List α} {a : α}
    (h : a ∉ distinctKeys l) : distinctKeys (l ++ [a]) = distinctKeys l ++ [a] := by
  unfold distinctKeys
  rw [List.foldl_append]
  simp only [List.foldl_cons, List.foldl_nil]
  rw [if_neg (by simpa [distinctKeys] using h)]

lemma addOcc_not_mem :
    ∀ (m : List (List Char × List Nat)) (k : List Char) (v : Nat),
      k ∉ m.map Prod.fst → addOcc m k v = m ++ [(k, [v])] := by
  intro m k v
  induction m with
  | nil => intro _; rfl
  | cons e rest ih =>
    intro h
    obtain ⟨k', vs⟩ := e
    simp only [List.map_cons, List.mem_cons] at h
    push_neg at h
    simp only [addOcc]
    rw [if_neg h.1, ih h.2]
    rfl

lemma addOcc_update (occ : List Char → List Nat) (k : List Char) (v : Nat) :
    ∀ (ks : List (List Char)), ks.Nodup → k ∈ ks →
      addOcc (ks.map (fun q => (q, occ q))) k v
        = ks.map (fun q => (q, occ q ++ if q = k then [v] else [])) := by
  intro ks
  induction ks with
  | nil =>
    intro _ h
    simp at h
  | cons k₀ ks ih =>
    intro hnd hmem
    obtain ⟨hk₀, hnd'⟩ := List.nodup_cons.mp hnd
    simp only [List.map_cons, addOcc]
    by_cases hk : k = k₀
    · rw [if_pos hk]
      subst hk
      congr 1
      · rw [if_pos rfl]
      · refine (List.map_congr_left ?_).symm
        intro a ha
        rw [if_neg (by rintro rfl; exact hk₀ ha), List.append_nil]
    · rw [if_neg hk]
      rcases List.mem_cons.mp hmem with rfl | hmem'
      · exact absurd rfl hk
      · rw [ih hnd' hmem']
        congr 1
        rw [if_neg (fun h => hk h.symm), List.append_nil]

lemma groupsOf_keys (stream : List (Nat × List Char)) :
    (groupsOf stream).map Prod.fst = dupBlocks stream := by
  rw [groupsOf, List.map_map]
  exact List.map_id _

lemma dupOccs_snoc (stream : List (Nat × List Char)) (p : Nat × List Char) (k : List Char) :
    dupOccs (stream ++ [p]) k = dupOccs stream k ++ if p.2 = k then [p.1] else [] := by
  by_cases h : p.2 = k <;>
    simp [dupOccs, List.filter_append, List.filter_cons, h]

lemma dupBlocks_snoc_mem {stream : List (Nat × List Char)} {p : Nat × List Char}
    (h : p.2 ∈ dupBlocks stream) : dupBlocks (stream ++ [p]) = dupBlocks stream := by
  simp only [dupBlocks, List.map_append, List.map_cons, List.map_nil]
  exact distinctKeys_snoc_mem (by simpa [dupBlocks] using h)

lemma dupBlocks_snoc_not_mem {stream : List (Nat × List Char)} {p : Nat × List Char}
    (h : p.2 ∉ dupBlocks stream) : dupBlocks (stream ++ [p]) = dupBlocks stream ++ [p.2] := by
  simp only [dupBlocks, List.map_append, List.map_cons, List.map_nil]
  exact distinctKeys_snoc_not_mem (by simpa [dupBlocks] using h)

lemma dupOccs_not_mem (stream : List (Nat × List Char)) (k : List Char)
    (h : k ∉ dupBlocks stream) : dupOccs stream k = [] := by
  have h' : k ∉ stream.map Prod.snd := by
    rwa [dupBlocks, mem_distinctKeys] at h
  rw [dupOccs]
  rw [List.filter_eq_nil_iff.mpr ?_]
  · rfl
  · intro p hp hbq
    exact h' (List.mem_map.mpr ⟨p, hp, by simpa using hbq⟩)

lemma groupsOf_snoc (stream : List (Nat × List Char)) (p : Nat × List Char) :
    addOcc (groupsOf stream) p.2 p.1 = groupsOf (stream ++ [p]) := by
  by_cases hmem : p.2 ∈ dupBlocks stream
  · rw [groupsOf, addOcc_update (dupOccs stream) p.2 p.1 (dupBlocks stream)
      (distinctKeys_nodup _) hmem]
    rw [groupsOf, dupBlocks_snoc_mem hmem]
    refine List.map_congr_left ?_
    intro k hk
    rw [dupOccs_snoc]
    by_cases h : k = p.2
    · rw [if_pos h, if_pos h.symm]
    · rw [if_neg h, if_neg (fun hh => h hh.symm)]
  · rw [addOcc_not_mem _ _ _ (by rw [groupsOf_keys]; exact hmem)]
    rw [groupsOf, groupsOf, dupBlocks_snoc_not_mem hmem, List.map_append]
    congr 1
    · refine List.map_congr_left ?_
      intro k hk
      rw [dupOccs_snoc, if_neg (by rintro rfl; exact hmem hk), List.append_nil]
    · simp only [List.map_cons, List.map_nil]
      rw [dupOccs_snoc, dupOccs_not_mem stream p.2 hmem, if_pos rfl, List.nil_append]

lemma foldl_filterMap {α β γ : Type} (g : α → Option β) (step : γ → β → γ) :
    ∀ (l : List α) (init : γ),
      (l.filterMap g).foldl step init
        = l.foldl (fun m x => match g x with | some y => step m y | none => m) init := by
  intro l
  induction l with
  | nil => intro init; rfl
  | cons a t ih =>
    intro init
    rw [List.filterMap_cons]
    cases hg : g a with
    | none =>
      rw [List.foldl_cons, hg]
      exact ih init
    | some b =>
      rw [List.foldl_cons, List.foldl_cons, hg]
      exact ih (step init b)

lemma buildBlocks_groups :
    ∀ (stream pre : List (Nat × List Char)),
      stream.foldl (fun m p => addOcc m p.2 p.1) (groupsOf pre) = groupsOf (pre ++ stream) := by
  intro stream
  induction stream with
  | nil =>
    intro pre
    rw [List.foldl_nil, List.append_nil]
  | cons p rest ih =>
    intro pre
    rw [List.foldl_cons, groupsOf_snoc pre p, ih (pre ++ [p])]
    congr 1
    simp

lemma buildBlocks_eq (lines : List (List Char)) :
    buildBlocks lines = groupsOf (dupStream lines) := by
  have h1 : buildBlocks lines
      = (dupStream lines).foldl (fun m p => addOcc m p.2 p.1) [] := by
    rw [dupStream, foldl_filterMap, buildBlocks]
    apply List.foldl_ext
    intro m i _
    by_cases h : 50 < (normBlock lines i).length
    · simp [h]
    · simp [h]
  rw [h1]
  have h2 := buildBlocks_groups (dupStream lines) []
  rw [show groupsOf [] = [] from rfl] at h2
  rw [h2, List.nil_append]

/-- C8 (amended): for every file, checkCodeDuplication emits exactly one
"Code Duplication Detected" finding per duplicated normalized block value —
one per group, never one per occurrence — with severity medium, located at
the group's first recorded window's starting line, and carrying the block
truncated to 100 characters plus an ellipsis. -/
theorem duplication_one_finding_per_group (f : CodeFile) :
    checkCodeDuplication f
      = (dupDistinct (dupStream (splitLines f.content.data))).map
          (specDupIssue f.path (dupStream (splitLines f.content.data))) := by
  rw [checkCodeDuplication, buildBlocks_eq, groupsOf, List.filter_map, List.map_map]
  rfl

set_option maxRecDepth 100000 in
/-- C8 counterexample: dupCexFile contains a 5-line block repeated verbatim
at two non-overlapping locations (lines 1–5 and 8–12), each normalized
block longer than 50 characters — yet checkCodeDuplication emits two
"Code Duplication Detected" findings, not one: both copies are followed by
an identical closing-brace line, so the shifted window is a second
duplicated normalized block with its own finding. -/
theorem duplication_two_findings_cex :
    (splitLines dupCexFile.content.data).take 5
      = ((splitLines dupCexFile.content.data).drop 7).take 5
  ∧ 50 < (normBlock (splitLines dupCexFile.content.data) 0).length
  ∧ ((checkCodeDuplication dupCexFile).filter
       (fun i => i.title == "Code Duplication Detected")).length = 2
  ∧ (checkCodeDuplication dupCexFile).length ≠ 1 := by
  refine ⟨by decide, by decide, by decide, by decide⟩
